import Mathlib

/-!
Verification of the wb-grep incremental indexing and retrieval engine.

Each definition below is a shallow embedding of a function of the wb-grep
source (`src/lib/chunker.ts`, `src/lib/embeddings.ts`, `src/lib/index-state.ts`,
`src/lib/vector-store.ts`, `src/lib/indexer.ts`, `src/commands/search.ts`).
JavaScript strings are modelled as Lean `String` (character-level; the inputs
of interest are ASCII, where UTF-16 code units and Unicode scalar values
coincide), JavaScript numbers as `Nat`/`Int`, fallible operations as `Except`,
and the external world (filesystem, HTTP embedding backend, UUID minting,
regular-expression matching) as explicit oracle parameters.
-/

namespace WbGrep

/-! ## Constants (`src/lib/constants.ts`) -/

def VECTOR_DIMENSIONS : Nat := 1024
def MAX_FILE_SIZE : Nat := 1024 * 1024
def DEFAULT_OLLAMA_RETRIES : Nat := 3
def MAX_RETRY_DELAY_MS : Nat := 10000
def DEFAULT_MAX_CHUNK_LINES : Nat := 150
def DEFAULT_OVERLAP_LINES : Nat := 5
def DEFAULT_MIN_CHUNK_LINES : Nat := 5
def BINARY_SAMPLE_SIZE : Nat := 8000

/-! ## Chunker (`src/lib/chunker.ts`)

`content.split("\n")` is embedded character-by-character: `splitLinesGo`
splits the character list at every newline character, exactly as the
JavaScript `String.prototype.split` with separator `"\n"` does (in
particular the empty string yields one empty line).  The per-extension
regular-expression families `FUNCTION_PATTERNS[ext]` are host-library
regexes; they are abstracted as a list of `String → Bool` predicates
(`patterns`), one per regex, so every theorem quantifies over all
possible filepaths/extensions and matching behaviours. -/

def newlineChar : Char := Char.ofNat 10

def nl : String := String.singleton newlineChar

structure ChunkConfig where
  maxChunkLines : Nat
  overlapLines : Nat
  minChunkLines : Nat
deriving DecidableEq, Repr

def defaultChunkConfig : ChunkConfig :=
  { maxChunkLines := DEFAULT_MAX_CHUNK_LINES
    overlapLines := DEFAULT_OVERLAP_LINES
    minChunkLines := DEFAULT_MIN_CHUNK_LINES }

structure CodeChunk where
  content : String
  lineStart : Nat
  lineEnd : Nat
deriving DecidableEq, Repr

def splitLinesGo : List Char → List (List Char)
  | [] => [[]]
  | c :: cs =>
    let r := splitLinesGo cs
    if c = newlineChar then [] :: r
    else (c :: r.headD []) :: r.tail

def splitLines (content : String) : List String :=
  (splitLinesGo content.data).map (fun l => String.mk l)

/-- One iteration step of the `for (let i = 0; i < lines.length; i += step)`
window loop shared by `chunkByLines` and `splitLargeChunk`
(`src/lib/chunker.ts` lines 157-199).  `fuel` bounds the number of loop
iterations; `lines.length + 1` iterations always suffice when `step ≥ 1`
(the only case in which the JavaScript loop terminates). -/
def windowGo (maxC minC step base : Nat) (lines : List String) :
    Nat → Nat → List CodeChunk
  | 0, _ => []
  | fuel + 1, i =>
    if i < lines.length then
      let e := min (i + maxC) lines.length
      let chunkLines := (lines.drop i).take (e - i)
      let rest :=
        if e = lines.length then []
        else windowGo maxC minC step base lines fuel (i + step)
      if minC ≤ chunkLines.length then
        ⟨String.intercalate nl chunkLines, base + i + 1, base + e⟩ :: rest
      else rest
    else []

def windowChunks (cfg : ChunkConfig) (base : Nat) (lines : List String) :
    List CodeChunk :=
  windowGo cfg.maxChunkLines cfg.minChunkLines
    (cfg.maxChunkLines - cfg.overlapLines) base lines (lines.length + 1) 0

/-- `CodeChunker.chunkByLines` (`src/lib/chunker.ts` lines 157-177). -/
def chunkByLines (cfg : ChunkConfig) (lines : List String) : List CodeChunk :=
  windowChunks cfg 0 lines

/-- `CodeChunker.splitLargeChunk` (`src/lib/chunker.ts` lines 179-199). -/
def splitLargeChunk (cfg : ChunkConfig) (lines : List String)
    (baseLineStart : Nat) : List CodeChunk :=
  windowChunks cfg baseLineStart lines

/-- `CodeChunker.detectBoundaries` (`src/lib/chunker.ts` lines 107-125). -/
def detectBoundaries (patterns : List (String → Bool)) (lines : List String) :
    List Nat :=
  if patterns.isEmpty then [0]
  else
    (List.range lines.length).foldl
      (fun acc i =>
        if patterns.any (fun p => p (lines.getD i "")) then
          if 0 < i ∧ i ≠ acc.getLastD 0 then acc ++ [i] else acc
        else acc)
      [0]

/-- `CodeChunker.chunkByBoundaries` (`src/lib/chunker.ts` lines 127-155). -/
def chunkByBoundaries (cfg : ChunkConfig) (lines : List String)
    (boundaries : List Nat) : List CodeChunk :=
  let bs2 := boundaries ++ [lines.length]
  let chunks := (bs2.zip bs2.tail).flatMap fun se =>
    let start := se.1
    let e := se.2
    let chunkLines := (lines.drop start).take (e - start)
    if cfg.maxChunkLines < chunkLines.length then
      splitLargeChunk cfg chunkLines start
    else if cfg.minChunkLines ≤ chunkLines.length then
      [⟨String.intercalate nl chunkLines, start + 1, e⟩]
    else []
  if chunks.isEmpty ∧ 0 < lines.length then chunkByLines cfg lines else chunks

/-- `CodeChunker.chunkCode` (`src/lib/chunker.ts` lines 84-105).  `patterns`
stands for `FUNCTION_PATTERNS[extname(filepath)] || []`. -/
def chunkCode (cfg : ChunkConfig) (patterns : List (String → Bool))
    (content : String) : List CodeChunk :=
  let lines := splitLines content
  if lines.length ≤ cfg.maxChunkLines then
    [⟨content, 1, lines.length⟩]
  else
    let boundaries := detectBoundaries patterns lines
    if 1 < boundaries.length then chunkByBoundaries cfg lines boundaries
    else chunkByLines cfg lines

/-! Chunker lemmas -/

lemma windowChunks_ne_nil (cfg : ChunkConfig) (base : Nat)
    (lines : List String)
    (hbig : cfg.maxChunkLines < lines.length)
    (hmin : cfg.minChunkLines ≤ cfg.maxChunkLines) :
    windowChunks cfg base lines ≠ [] := by
  unfold windowChunks
  have hpos : 0 < lines.length := Nat.lt_of_le_of_lt (Nat.zero_le _) hbig
  rw [show lines.length + 1 = lines.length + 1 from rfl]
  simp only [windowGo]
  have h0 : (0 : Nat) < lines.length := hpos
  rw [if_pos h0]
  have he : min (0 + cfg.maxChunkLines) lines.length = cfg.maxChunkLines := by
    simpa using Nat.min_eq_left (Nat.le_of_lt hbig)
  have hlen :
      (((lines.drop 0).take (min (0 + cfg.maxChunkLines) lines.length - 0)).length)
        = cfg.maxChunkLines := by
    rw [he]
    simp [Nat.min_eq_left (Nat.le_of_lt hbig)]
  rw [if_pos (by rw [hlen]; exact hmin)]
  exact List.cons_ne_nil _ _

lemma chunkByLines_ne_nil (cfg : ChunkConfig) (lines : List String)
    (hbig : cfg.maxChunkLines < lines.length)
    (hmin : cfg.minChunkLines ≤ cfg.maxChunkLines) :
    chunkByLines cfg lines ≠ [] :=
  windowChunks_ne_nil cfg 0 lines hbig hmin

lemma chunkByBoundaries_ne_nil (cfg : ChunkConfig) (lines : List String)
    (boundaries : List Nat)
    (hbig : cfg.maxChunkLines < lines.length)
    (hmin : cfg.minChunkLines ≤ cfg.maxChunkLines) :
    chunkByBoundaries cfg lines boundaries ≠ [] := by
  unfold chunkByBoundaries
  have hpos : 0 < lines.length := Nat.lt_of_le_of_lt (Nat.zero_le _) hbig
  dsimp only
  split
  · exact chunkByLines_ne_nil cfg lines hbig hmin
  · next hemp =>
      intro hnil
      exact hemp ⟨by rw [hnil]; rfl, hpos⟩

lemma chunkCode_ne_nil (cfg : ChunkConfig) (patterns : List (String → Bool))
    (content : String)
    (hmin : cfg.minChunkLines ≤ cfg.maxChunkLines) :
    chunkCode cfg patterns content ≠ [] := by
  unfold chunkCode
  by_cases hsmall : (splitLines content).length ≤ cfg.maxChunkLines
  · rw [if_pos hsmall]
    exact List.cons_ne_nil _ _
  · rw [if_neg hsmall]
    have hbig : cfg.maxChunkLines < (splitLines content).length :=
      Nat.lt_of_not_le hsmall
    by_cases hb : 1 < (detectBoundaries patterns (splitLines content)).length
    · rw [if_pos hb]
      exact chunkByBoundaries_ne_nil cfg _ _ hbig hmin
    · rw [if_neg hb]
      exact chunkByLines_ne_nil cfg _ hbig hmin

/-- **C9.** For every content whose line count (splitting on the newline
character) is at most `maxChunkLines`, `chunkCode` returns exactly one chunk
whose content is the whole input, with `lineStart = 1` and
`lineEnd = totalLines`; in particular a file with exactly `maxChunkLines`
lines yields a single chunk spanning `[1 … maxChunkLines]`. -/
theorem chunkCode_single_chunk_of_small (cfg : ChunkConfig)
    (patterns : List (String → Bool)) (content : String)
    (h : (splitLines content).length ≤ cfg.maxChunkLines) :
    chunkCode cfg patterns content =
      [⟨content, 1, (splitLines content).length⟩] := by
  unfold chunkCode
  rw [if_pos h]

/-- Witness for C9: a two-line file under the default configuration. -/
theorem chunkCode_single_chunk_of_small_witness :
    (splitLines ("ab" ++ nl ++ "cd")).length ≤ defaultChunkConfig.maxChunkLines ∧
    chunkCode defaultChunkConfig [] ("ab" ++ nl ++ "cd") =
      [⟨"ab" ++ nl ++ "cd", 1, 2⟩] := by
  refine ⟨by decide, ?_⟩
  have h := chunkCode_single_chunk_of_small defaultChunkConfig []
    ("ab" ++ nl ++ "cd") (by decide)
  rw [h]
  decide

/-- **C10.** Under a chunker configuration with
`minChunkLines ≤ maxChunkLines` and `0 < overlapLines < maxChunkLines`
(the defaults), `chunkCode` returns at least one chunk for every content
and every pattern family (hence every filepath); consequently the
`chunks.length === 0` skip branch of `Indexer.indexFile`
(`src/lib/indexer.ts` lines 124-127) can never be taken, since the
indexer constructs its chunker with the default configuration. -/
theorem chunkCode_never_empty (cfg : ChunkConfig)
    (patterns : List (String → Bool)) (content : String)
    (hmin : cfg.minChunkLines ≤ cfg.maxChunkLines)
    (_hov : 0 < cfg.overlapLines)
    (_hov2 : cfg.overlapLines < cfg.maxChunkLines) :
    chunkCode cfg patterns content ≠ [] :=
  chunkCode_ne_nil cfg patterns content hmin

/-- Witness for C10: the default configuration and a tiny file. -/
theorem chunkCode_never_empty_witness :
    defaultChunkConfig.minChunkLines ≤ defaultChunkConfig.maxChunkLines ∧
    0 < defaultChunkConfig.overlapLines ∧
    defaultChunkConfig.overlapLines < defaultChunkConfig.maxChunkLines ∧
    chunkCode defaultChunkConfig [] "hello" ≠ [] :=
  ⟨by decide, by decide, by decide,
    chunkCode_never_empty defaultChunkConfig [] "hello"
      (by decide) (by decide) (by decide)⟩

/-! ## Embedding client (`src/lib/embeddings.ts`)

JavaScript `Error` objects are modelled by their `name` and `message`
fields; `String.prototype.includes` is embedded character-by-character. -/

structure JsError where
  name : String
  message : String
deriving DecidableEq, Repr

def startsWithList : List Char → List Char → Bool
  | _, [] => true
  | [], _ :: _ => false
  | c :: cs, d :: ds => c = d && startsWithList cs ds

def containsList : List Char → List Char → Bool
  | [], sub => sub.isEmpty
  | c :: cs, sub => startsWithList (c :: cs) sub || containsList cs sub

/-- JavaScript `s.includes(sub)`. -/
def strIncludes (s sub : String) : Bool :=
  containsList s.data sub.data

/-- `lastError.name === "AbortError" || lastError.message.includes("aborted")`
(`src/lib/embeddings.ts` lines 278-280). -/
def isAbortError (e : JsError) : Bool :=
  e.name == "AbortError" || strIncludes e.message "aborted"

/-- The network-error test of `OllamaEmbedder.withRetry`
(`src/lib/embeddings.ts` lines 281-284). -/
def isNetworkError (e : JsError) : Bool :=
  strIncludes e.message "ECONNREFUSED" || strIncludes e.message "ECONNRESET"
    || strIncludes e.message "fetch failed"

/-- Possible outcomes of `withRetry`: a value, a rethrown raw error, or a
`RetryError` (`src/lib/embeddings.ts` lines 218-227) carrying its message,
the attempt count, and the last underlying error. -/
inductive RetryResult (T : Type) where
  | ok : T → RetryResult T
  | raised : JsError → RetryResult T
  | retryError : String → Nat → JsError → RetryResult T
deriving DecidableEq, Repr

/-- One iteration of the `for (let attempt = 1; attempt <= retries; ...)`
loop of `OllamaEmbedder.withRetry` (`src/lib/embeddings.ts` lines 266-301).
`op attempt` is the outcome of the operation on that attempt. `fuel` counts
the remaining admissible attempts (`retries + 1 - attempt`), so `fuel = 0`
is exactly the loop exit, where the source constructs a `RetryError`.
The second component collects the back-off delays slept between attempts. -/
def withRetryGo (retries : Nat) (operationName : String)
    (op : Nat → Except JsError Nat) :
    Nat → Nat → JsError → RetryResult Nat × List Nat
  | 0, _, lastError =>
    (.retryError
      (operationName ++ " failed after " ++ Nat.repr retries ++ " attempts")
      retries lastError, [])
  | fuel + 1, attempt, _ =>
    match op attempt with
    | .ok v => (.ok v, [])
    | .error e =>
      if attempt < retries ∧ (isAbortError e || isNetworkError e) = true then
        let delay := min (1000 * 2 ^ (attempt - 1)) MAX_RETRY_DELAY_MS
        let r := withRetryGo retries operationName op fuel (attempt + 1) e
        (r.1, delay :: r.2)
      else (.raised e, [])

def withRetry (retries : Nat) (operationName : String)
    (op : Nat → Except JsError Nat) : RetryResult Nat × List Nat :=
  withRetryGo retries operationName op retries 1 ⟨"Error", "Unknown error"⟩

/-- A connection-refused failure, as produced by node `fetch` when the
Ollama backend is down. -/
def econnErr : JsError := ⟨"Error", "connect ECONNREFUSED 127.0.0.1:11434"⟩

/-- **C3.** The claim says that when every attempt fails with a retryable
error, `embed` surfaces a typed `RetryError` carrying the attempt count and
the last underlying error.  The code cannot do this: every loop iteration
either returns or throws, so the `throw new RetryError(...)` after the loop
(`src/lib/embeddings.ts` lines 296-300) is unreachable whenever
`retries ≥ 1`; the final failing attempt rethrows the raw error inside the
loop (`attempt < retries` is false there).  Evaluating the model at the
failing input — default `retries = 3`, every attempt failing with
`ECONNREFUSED` — shows the call produces the raw `econnErr`
(`RetryResult.raised`), not a `RetryResult.retryError`, after back-off
delays of 1000 ms and 2000 ms (which do match the claimed schedule). -/
theorem withRetry_exhaustion_raises_raw_error :
    withRetry DEFAULT_OLLAMA_RETRIES "embed" (fun _ => Except.error econnErr) =
      (RetryResult.raised econnErr, [1000, 2000]) := by decide

/-- `Array(this.config.dimensions).fill(0)` (`src/lib/embeddings.ts` line 346). -/
def zeroVector (dims : Nat) : List Int := List.replicate dims 0

/-- The error recorded for one batch item, if any. -/
def errOf : Except JsError (List Int) → Option JsError
  | .ok _ => none
  | .error e => some e

/-- The per-item result slot: the embedding on success, a zero vector of
dimension `dims` on failure (`src/lib/embeddings.ts` lines 339-347). -/
def substEmbed (dims : Nat) : Except JsError (List Int) → List Int
  | .ok v => v
  | .error _ => zeroVector dims

def allFailedMsg (n : Nat) (e : JsError) : String :=
  "All " ++ Nat.repr n ++ " embeddings failed. First error: " ++ e.message

/-- `OllamaEmbedder.batchEmbed` (`src/lib/embeddings.ts` lines 327-361).
Each queue item is shifted and processed exactly once and its result is
written at its own index, so `results` is determined by `items`, the list
of per-item `embed` outcomes in input order.  The `errors` array, however,
is pushed to when each worker's `await` settles, i.e. in worker
*completion* order, which with concurrency ≥ 2 is an arbitrary
interleaving: it is modelled by `order`, the same outcomes listed in
completion order (a permutation of `items`). -/
def batchEmbed (dims : Nat)
    (items order : List (Except JsError (List Int))) :
    Except String (List (List Int)) :=
  let results := items.map (substEmbed dims)
  let errors := order.filterMap errOf
  if 0 < errors.length && errors.length == items.length then
    Except.error (allFailedMsg errors.length (errors.headD ⟨"", ""⟩))
  else
    Except.ok results

def exceptOk {ε α : Type} : Except ε α → Bool
  | .ok _ => true
  | .error _ => false

lemma length_filterMap_errOf_le (items : List (Except JsError (List Int))) :
    (items.filterMap errOf).length ≤ items.length := by
  induction items with
  | nil => simp
  | cons a l ih =>
    cases ha : errOf a <;> simp [List.filterMap_cons, ha] <;> omega

lemma filterMap_errOf_length_eq (items : List (Except JsError (List Int))) :
    (items.filterMap errOf).length = items.length ↔
      ∀ r ∈ items, errOf r ≠ none := by
  induction items with
  | nil => simp
  | cons a l ih =>
    cases ha : errOf a with
    | none =>
      have hle := length_filterMap_errOf_le l
      simp [List.filterMap_cons, ha]
      omega
    | some e =>
      simp [List.filterMap_cons, ha, ih]

/-- **C4.** For every input list and every worker-completion order (hence
every concurrency cap and scheduling), `batchEmbed` is length-preserving
with each result at the index of its input
(`out = items.map (substEmbed dims)`), a failed item is replaced by a zero
vector of dimension `dims` while the call still succeeds, and the call
fails as a whole — reporting the first underlying error, i.e. the error of
the first item to settle in the completion order, which with concurrency
≥ 2 need not be the first failing item in input order — exactly when the
input is nonempty and every item fails (an empty input has no failed item
and succeeds with the empty result). -/
theorem batchEmbed_spec (dims : Nat)
    (items order : List (Except JsError (List Int)))
    (hperm : order.Perm items) :
    (exceptOk (batchEmbed dims items order) = false ↔
      items ≠ [] ∧ ∀ r ∈ items, errOf r ≠ none) ∧
    (∀ out, batchEmbed dims items order = Except.ok out →
      out.length = items.length ∧ out = items.map (substEmbed dims)) ∧
    (∀ e os, order = Except.error e :: os →
      (∀ r ∈ items, errOf r ≠ none) →
      batchEmbed dims items order =
        Except.error (allFailedMsg items.length e)) := by
  have hlen : (order.filterMap errOf).length =
      (items.filterMap errOf).length :=
    (hperm.filterMap errOf).length_eq
  refine ⟨?_, ?_, ?_⟩
  · unfold batchEmbed
    dsimp only
    split
    · next hc =>
        simp only [Bool.and_eq_true, decide_eq_true_eq, beq_iff_eq] at hc
        obtain ⟨h1, h2⟩ := hc
        rw [hlen] at h1 h2
        have hall : ∀ r ∈ items, errOf r ≠ none :=
          (filterMap_errOf_length_eq items).mp h2
        have hne : items ≠ [] := by
          intro h
          subst h
          simp at h1
        exact iff_of_true rfl ⟨hne, hall⟩
    · next hc =>
        simp only [Bool.and_eq_true, decide_eq_true_eq, beq_iff_eq,
          not_and] at hc
        constructor
        · intro h; simp [exceptOk] at h
        · rintro ⟨hne, hall⟩
          have h2 := (filterMap_errOf_length_eq items).mpr hall
          have h2b : (order.filterMap errOf).length = items.length := by
            rw [hlen, h2]
          have h1 : 0 < (order.filterMap errOf).length := by
            rw [h2b]
            exact List.length_pos.mpr hne
          exact absurd h2b (hc h1)
  · intro out hout
    unfold batchEmbed at hout
    dsimp only at hout
    split at hout
    · exact absurd hout (by simp)
    · injection hout with h
      exact ⟨by rw [← h]; simp, h.symm⟩
  · intro e os horder hall
    have h2 := (filterMap_errOf_length_eq items).mpr hall
    have h2b : (order.filterMap errOf).length = items.length := by
      rw [hlen, h2]
    have hne : items ≠ [] := by
      intro h
      subst h
      have hl := hperm.length_eq
      rw [horder] at hl
      simp at hl
    have h3 : 0 < items.length := List.length_pos.mpr hne
    have hhead : order.filterMap errOf = e :: os.filterMap errOf := by
      rw [horder, List.filterMap_cons]
      simp [errOf]
    unfold batchEmbed
    dsimp only
    rw [if_pos (by simp [h2b, h3])]
    rw [h2b, hhead]
    simp

/-- Witness for C4: two items that both fail, with the second item
settling first — the reported error is the completion-order head (the
second item's error), not the first item in input order. -/
theorem batchEmbed_spec_witness :
    batchEmbed 2
        [Except.error ⟨"Error", "slow timeout"⟩,
          Except.error ⟨"Error", "fast 500"⟩]
        [Except.error ⟨"Error", "fast 500"⟩,
          Except.error ⟨"Error", "slow timeout"⟩] =
      Except.error (allFailedMsg 2 ⟨"Error", "fast 500"⟩) :=
  (batchEmbed_spec 2 _ _ (by exact List.Perm.swap _ _ _)).2.2
    ⟨"Error", "fast 500"⟩
    [Except.error ⟨"Error", "slow timeout"⟩] rfl (by decide)

/-! ## Vector-store filter strings (`src/lib/vector-store.ts`)

The filter predicates handed to LanceDB are SQL-like strings.  The builders
below embed exactly the string constructions of the source.  `singleQuote`,
`backslashChar` and `doubleQuoteChar` are the characters with code points
39, 92 and 34. -/

def singleQuote : Char := Char.ofNat 39
def backslashChar : Char := Char.ofNat 92
def doubleQuoteChar : Char := Char.ofNat 34
def sq : String := String.singleton singleQuote

/-- JavaScript `str.replace(/t/g, r)` for a single-character pattern `t`. -/
def replaceChar (t : Char) (r : List Char) (l : List Char) : List Char :=
  l.flatMap fun c => if c = t then r else [c]

/-- `LanceDBStore.escapeSqlString` (`src/lib/vector-store.ts` lines 493-508):
double backslashes, double single quotes, backslash-escape double quotes,
then strip characters with code points below 32 or equal to 127. -/
def escapeSqlString (value : String) : String :=
  let s1 := replaceChar backslashChar [backslashChar, backslashChar] value.data
  let s2 := replaceChar singleQuote [singleQuote, singleQuote] s1
  let s3 := replaceChar doubleQuoteChar [backslashChar, doubleQuoteChar] s2
  String.mk (s3.filter fun c => 32 ≤ c.toNat && c.toNat != 127)

/-- `value.replace(/'/g, "''")`: the only escaping applied by
`deleteByFilepath` and `deleteByIds` (`src/lib/vector-store.ts` lines
482-491). -/
def quoteDoubled (value : String) : String :=
  String.mk (replaceChar singleQuote [singleQuote, singleQuote] value.data)

/-- The `where` clause built by `LanceDBStore.search` for a path filter
(`src/lib/vector-store.ts` lines 519-522). -/
def searchWhereClause (pathFilter : String) : String :=
  "filepath LIKE " ++ sq ++ escapeSqlString pathFilter ++ "%" ++ sq

/-- The delete predicate of `LanceDBStore.deleteByFilepath`
(`src/lib/vector-store.ts` line 484). -/
def deleteByFilepathClause (filepath : String) : String :=
  "filepath = " ++ sq ++ quoteDoubled filepath ++ sq

/-- The delete predicate of `LanceDBStore.deleteByIds`
(`src/lib/vector-store.ts` lines 488-490). -/
def deleteByIdsClause (ids : List String) : String :=
  "id IN (" ++
    String.intercalate "," (ids.map fun i => sq ++ quoteDoubled i ++ sq) ++ ")"

/-- The safe form stated by the spec (§4.4), written as a single
character-by-character pass: backslash-escape backslashes, double single
quotes, backslash-escape double quotes, then strip code points below 32 or
equal to 127. -/
def specSafeEscapeChar (c : Char) : List Char :=
  if c = backslashChar then [backslashChar, backslashChar]
  else if c = singleQuote then [singleQuote, singleQuote]
  else if c = doubleQuoteChar then [backslashChar, doubleQuoteChar]
  else [c]

def specSafeEscape (value : String) : String :=
  String.mk ((value.data.flatMap specSafeEscapeChar).filter
    fun c => 32 ≤ c.toNat && c.toNat != 127)

lemma escape_pipeline (l : List Char) :
    replaceChar doubleQuoteChar [backslashChar, doubleQuoteChar]
      (replaceChar singleQuote [singleQuote, singleQuote]
        (replaceChar backslashChar [backslashChar, backslashChar] l))
      = l.flatMap specSafeEscapeChar := by
  induction l with
  | nil => rfl
  | cons c cs ih =>
    have n1 : backslashChar ≠ singleQuote := by decide
    have n2 : backslashChar ≠ doubleQuoteChar := by decide
    have n3 : singleQuote ≠ backslashChar := by decide
    have n4 : singleQuote ≠ doubleQuoteChar := by decide
    have n5 : doubleQuoteChar ≠ backslashChar := by decide
    have n6 : doubleQuoteChar ≠ singleQuote := by decide
    simp only [replaceChar, List.flatMap_cons, List.flatMap_append] at ih ⊢
    rw [ih]
    by_cases h1 : c = backslashChar
    · subst h1
      simp [specSafeEscapeChar, n1, n2]
    · by_cases h2 : c = singleQuote
      · subst h2
        simp [specSafeEscapeChar, n3, n4]
      · by_cases h3 : c = doubleQuoteChar
        · subst h3
          simp [specSafeEscapeChar, n5, n6]
        · simp [specSafeEscapeChar, h1, h2, h3]

/-- **C7 (counterexample).** For a filepath containing a backslash, the
predicate built by `deleteByFilepath` is not the claimed safe form: the
backslash is embedded unescaped, because `deleteByFilepath` only doubles
single quotes. -/
theorem deleteByFilepath_clause_not_safe_form :
    deleteByFilepathClause ("a" ++ String.singleton backslashChar ++ "b") ≠
      "filepath = " ++ sq ++
        escapeSqlString ("a" ++ String.singleton backslashChar ++ "b") ++ sq := by
  decide

/-- **C7 (amended).** Of the strings embedded in vector-store filter
predicates, only the `pathFilter` of `search` is escaped in the safe form
(`escapeSqlString`, which provably implements the spec's safe form
character by character); `deleteByFilepath` and `deleteByIds` escape only
by doubling single quotes. -/
theorem filter_escaping_amended :
    (∀ v, escapeSqlString v = specSafeEscape v) ∧
    (∀ p, searchWhereClause p =
      "filepath LIKE " ++ sq ++ specSafeEscape p ++ "%" ++ sq) ∧
    (∀ fp, deleteByFilepathClause fp =
      "filepath = " ++ sq ++ quoteDoubled fp ++ sq) ∧
    (∀ ids, deleteByIdsClause ids = "id IN (" ++
      String.intercalate "," (ids.map fun i => sq ++ quoteDoubled i ++ sq)
        ++ ")") := by
  have hesc : ∀ v, escapeSqlString v = specSafeEscape v := by
    intro v
    unfold escapeSqlString specSafeEscape
    dsimp only
    rw [escape_pipeline]
  refine ⟨hesc, ?_, fun _ => rfl, fun _ => rfl⟩
  intro p
  unfold searchWhereClause
  rw [hesc]

/-! ## Search path resolution (`src/lib/indexer.ts`, `src/commands/search.ts`)

`path.isAbsolute` on posix tests for a leading slash; `path.join root p`
is modelled as `root ++ "/" ++ p`. -/

def jsIsAbsolute (p : String) : Bool :=
  p.data.headD (Char.ofNat 0) = Char.ofNat 47

def pathJoin (root p : String) : String := root ++ "/" ++ p

/-- `Indexer.search` (`src/lib/indexer.ts` lines 240-247): the limit is
`options.limit ?? config.search.maxResults` and `options.pathFilter` is
forwarded verbatim as the third argument of `vectorStore.search`. -/
def indexerSearchArgs (maxResults : Nat) (limit : Option Nat)
    (pathFilter : Option String) : Nat × Option String :=
  (limit.getD maxResults, pathFilter)

/-- The path-filter resolution performed by the CLI command `performSearch`
(`src/commands/search.ts` lines 83-88) before it queries the vector store
directly. -/
def performSearchPathFilter (root : String) (searchPath : Option String) :
    Option String :=
  match searchPath with
  | none => none
  | some p => some (if jsIsAbsolute p then p else pathJoin root p)

/-- Follows the spec wording (§4.6.4 step 2): resolve `pathFilter` to an
absolute prefix, treating non-absolute inputs as relative to the root. -/
def specResolvedPathFilter (root : String) (pathFilter : Option String) :
    Option String :=
  pathFilter.map fun p => if jsIsAbsolute p then p else pathJoin root p

/-- **C5 (counterexample).** With root `/repo` and the relative filter
`src`, `Indexer.search` passes `src` to the vector store unchanged, which
differs from the absolute prefix `/repo/src` the claim requires. -/
theorem indexerSearch_does_not_resolve_pathFilter :
    (indexerSearchArgs 10 none (some "src")).2 = some "src" ∧
    (indexerSearchArgs 10 none (some "src")).2 ≠
      specResolvedPathFilter "/repo" (some "src") := by decide

/-- **C5 (amended).** `Indexer.search` forwards `pathFilter` to the vector
store unchanged; the resolution of a search path to an absolute prefix
(treating non-absolute inputs as relative to the root) is performed by the
CLI search command `performSearch` before it calls the store's search. -/
theorem pathFilter_resolution_amended :
    (∀ root sp, performSearchPathFilter root sp =
      specResolvedPathFilter root sp) ∧
    (∀ mr l pf, indexerSearchArgs mr l pf = (l.getD mr, pf)) :=
  ⟨fun root sp => by cases sp <;> rfl, fun _ _ _ => rfl⟩

/-! ## Vector store rows and journal (`src/lib/vector-store.ts`,
`src/lib/index-state.ts`)

The LanceDB table is modelled as a list of rows (a multiset with an
insertion order); `deleteByIds` removes the rows whose `id` occurs in the
given list, exactly the semantics of the `id IN (...)` delete predicate.
The journal (`IndexStateManager.state.files`) is a partial map from
filepaths to `FileMetadata`. -/

structure ChunkRow where
  id : String
  filepath : String
  content : String
  lineStart : Nat
  lineEnd : Nat
  vector : List Int
  hash : String
  timestamp : Nat
deriving DecidableEq, Repr

/-- `LanceDBStore.deleteByIds` (`src/lib/vector-store.ts` lines 487-491). -/
def deleteByIds (store : List ChunkRow) (ids : List String) : List ChunkRow :=
  if ids.isEmpty then store
  else store.filter fun r => !(ids.contains r.id)

/-- `LanceDBStore.addChunks` (`src/lib/vector-store.ts` lines 470-480):
append-only insert. -/
def addChunks (store : List ChunkRow) (records : List ChunkRow) :
    List ChunkRow :=
  store ++ records

structure FileMetadata where
  hash : String
  lastModified : Nat
  chunkIds : List String
  chunkCount : Nat
deriving DecidableEq, Repr

def Journal : Type := String → Option FileMetadata

/-- `IndexStateManager.setFile` (`src/lib/index-state.ts` lines 150-153). -/
def setFile (j : Journal) (filepath : String) (md : FileMetadata) : Journal :=
  fun x => if x = filepath then some md else j x

/-- `IndexStateManager.deleteFile` (`src/lib/index-state.ts` lines 159-164). -/
def journalDeleteFile (j : Journal) (filepath : String) : Journal :=
  fun x => if x = filepath then none else j x

/-- `IndexStateManager.hasFileChanged` (`src/lib/index-state.ts` lines
166-169): `!existing || existing.hash !== hash`. -/
def hasFileChanged (j : Journal) (filepath hash : String) : Bool :=
  match j filepath with
  | none => true
  | some md => md.hash != hash

def emptyJournal : Journal := fun _ => none

/-- The two persistent stores owned by the indexer. -/
structure IndexerState where
  store : List ChunkRow
  journal : Journal

def initialState : IndexerState := ⟨[], emptyJournal⟩

structure IndexResult where
  chunks : Nat
  skipped : Bool
  error : Option String
deriving DecidableEq, Repr

/-! ## Indexer (`src/lib/indexer.ts`)

`indexFile` threads the state through the reconcile steps of
`Indexer.indexFile` (lines 89-164).  External effects are supplied by an
`IndexEnv` oracle: the `fs.statSync` size, the `readFileSync` content, the
regex family for the file's extension, the `batchEmbed` outcome, whether
the store delete/insert calls throw, the `uuidv4` id supply, and
`Date.now()`.  Each `Except.error m` models that step throwing an error
with message `m`, at which point the source catch-block (lines 159-163)
returns `{chunks: 0, skipped: true, error: m}`; a store operation that
throws leaves the store unchanged. -/

structure IndexEnv where
  statRes : Except String Nat
  readRes : Except String String
  patterns : List (String → Bool)
  embedRes : Except String (List (List Int))
  deleteRes : Except String Unit
  addRes : Except String Unit
  newIds : Nat → String
  now : Nat

/-- `Indexer.isBinaryContent` (`src/lib/indexer.ts` lines 263-277): more
than one NUL among the first `BINARY_SAMPLE_SIZE` code units. -/
def isBinaryContent (content : String) : Bool :=
  1 < ((content.data.take BINARY_SAMPLE_SIZE).filter
    fun c => c.toNat = 0).length

/-- The chunk rows assembled by `Indexer.indexFile` (lines 134-147): fresh
id, the reconciled filepath, the chunk fields, the embedding at the same
index, and the whole-file hash. -/
def buildRecords (newIds : Nat → String) (filepath hash : String) (now : Nat)
    (embs : List (List Int)) (chunks : List CodeChunk) : List ChunkRow :=
  chunks.enum.map fun p =>
    ⟨newIds p.1, filepath, p.2.content, p.2.lineStart, p.2.lineEnd,
      embs.getD p.1 [], hash, now⟩

/-- The `chunkIds` accumulated alongside `buildRecords`. -/
def newChunkIds (newIds : Nat → String) (n : Nat) : List String :=
  (List.range n).map newIds

/-- The tail of `Indexer.indexFile` after the delete-existing step (lines
124-158): chunk, embed, insert, and update the journal. -/
def indexFileRest (env : IndexEnv) (j : Journal) (store1 : List ChunkRow)
    (filepath content hash : String) : IndexResult × IndexerState :=
  if (chunkCode defaultChunkConfig env.patterns content).length = 0 then
    (⟨0, true, none⟩, ⟨store1, j⟩)
  else
    match env.embedRes with
    | .error m => (⟨0, true, some m⟩, ⟨store1, j⟩)
    | .ok embs =>
      match env.addRes with
      | .error m => (⟨0, true, some m⟩, ⟨store1, j⟩)
      | .ok _ =>
        (⟨(chunkCode defaultChunkConfig env.patterns content).length, false,
            none⟩,
          ⟨addChunks store1
              (buildRecords env.newIds filepath hash env.now embs
                (chunkCode defaultChunkConfig env.patterns content)),
            setFile j filepath
              ⟨hash, env.now,
                newChunkIds env.newIds
                  (chunkCode defaultChunkConfig env.patterns content).length,
                (chunkCode defaultChunkConfig env.patterns content).length⟩⟩)

/-- `Indexer.indexFile` (`src/lib/indexer.ts` lines 89-164). -/
def indexFile (maxFileSize : Nat) (hashFn : String → String) (env : IndexEnv)
    (s : IndexerState) (filepath : String) (force : Bool) :
    IndexResult × IndexerState :=
  match env.statRes with
  | .error m => (⟨0, true, some m⟩, s)
  | .ok size =>
    if maxFileSize < size then (⟨0, true, none⟩, s)
    else if size = 0 then (⟨0, true, none⟩, s)
    else
      match env.readRes with
      | .error m => (⟨0, true, some m⟩, s)
      | .ok content =>
        if isBinaryContent content then (⟨0, true, none⟩, s)
        else
          let hash := hashFn content
          if !force && !(hasFileChanged s.journal filepath hash) then
            (⟨0, true, none⟩, s)
          else
            match s.journal filepath with
            | some existing =>
              match env.deleteRes with
              | .error m => (⟨0, true, some m⟩, s)
              | .ok _ =>
                indexFileRest env s.journal
                  (deleteByIds s.store existing.chunkIds) filepath content hash
            | none => indexFileRest env s.journal s.store filepath content hash

/-- `Indexer.deleteFile` (`src/lib/indexer.ts` lines 204-211). -/
def deleteFileOp (s : IndexerState) (filepath : String) : IndexerState :=
  match s.journal filepath with
  | none => s
  | some existing =>
    ⟨deleteByIds s.store existing.chunkIds,
      journalDeleteFile s.journal filepath⟩

/-- `Indexer.clear` (`src/lib/indexer.ts` lines 234-238): truncate the
store, empty the journal. -/
def clearOp (_s : IndexerState) : IndexerState := ⟨[], emptyJournal⟩

/-- Freshness of the minted UUIDs: `uuidv4` is assumed to never collide,
so the supply is injective and avoids every id already in the store. -/
def FreshIds (env : IndexEnv) (s : IndexerState) : Prop :=
  Function.Injective env.newIds ∧ ∀ i, ∀ r ∈ s.store, env.newIds i ≠ r.id

/-- Quiescent states reachable from the initial state by successful
`indexFile` runs (no step threw), `deleteFile`, and `clear`. -/
inductive Reach (maxFileSize : Nat) (hashFn : String → String) :
    IndexerState → Prop
  | init : Reach maxFileSize hashFn initialState
  | index (s : IndexerState) (env : IndexEnv) (filepath : String)
      (force : Bool) :
      Reach maxFileSize hashFn s → FreshIds env s →
      (indexFile maxFileSize hashFn env s filepath force).1.error = none →
      Reach maxFileSize hashFn
        (indexFile maxFileSize hashFn env s filepath force).2
  | deleteFile (s : IndexerState) (filepath : String) :
      Reach maxFileSize hashFn s →
      Reach maxFileSize hashFn (deleteFileOp s filepath)
  | clearStep (s : IndexerState) :
      Reach maxFileSize hashFn s → Reach maxFileSize hashFn (clearOp s)

/-- The rows stored for one filepath, in store order. -/
def rowsFor (store : List ChunkRow) (fp : String) : List ChunkRow :=
  store.filter fun r => r.filepath == fp

/-- The chunk ids stored for one filepath, in store order. -/
def idsFor (store : List ChunkRow) (fp : String) : List String :=
  (rowsFor store fp).map fun r => r.id

/-- The store/journal coherence invariant, strengthened with global id
uniqueness and absence of rows for unjournalled files (both needed for the
induction). -/
structure Inv (s : IndexerState) : Prop where
  ids_eq : ∀ fp md, s.journal fp = some md → idsFor s.store fp = md.chunkIds
  hash_eq : ∀ fp md, s.journal fp = some md →
    ∀ r ∈ s.store, r.filepath = fp → r.hash = md.hash
  nodup : (s.store.map fun r => r.id).Nodup
  orphanFree : ∀ r ∈ s.store, ∃ md, s.journal r.filepath = some md

/-! Invariant lemmas -/

lemma mem_rowsFor {store : List ChunkRow} {fp : String} {r : ChunkRow} :
    r ∈ rowsFor store fp ↔ r ∈ store ∧ r.filepath = fp := by
  simp [rowsFor, List.mem_filter]

lemma row_eq_of_id_eq {store : List ChunkRow}
    (hnd : (store.map fun r => r.id).Nodup) {r q : ChunkRow}
    (hr : r ∈ store) (hq : q ∈ store) (h : r.id = q.id) : r = q :=
  List.inj_on_of_nodup_map hnd hr hq h

lemma id_mem_iff_filepath {s : IndexerState} (hInv : Inv s) {fp : String}
    {md : FileMetadata} (hmd : s.journal fp = some md) {r : ChunkRow}
    (hr : r ∈ s.store) : r.id ∈ md.chunkIds ↔ r.filepath = fp := by
  constructor
  · intro hmem
    rw [← hInv.ids_eq fp md hmd] at hmem
    obtain ⟨q, hq, hid⟩ := List.mem_map.mp hmem
    obtain ⟨hqs, hqf⟩ := mem_rowsFor.mp hq
    rw [← row_eq_of_id_eq hInv.nodup hr hqs hid.symm] at hqf
    exact hqf
  · intro hfp
    rw [← hInv.ids_eq fp md hmd]
    exact List.mem_map.mpr ⟨r, mem_rowsFor.mpr ⟨hr, hfp⟩, rfl⟩

/-- For a journalled file, deleting its `chunkIds` removes exactly the rows
with that filepath. -/
lemma deleteByIds_entry {s : IndexerState} (hInv : Inv s) {fp : String}
    {md : FileMetadata} (hmd : s.journal fp = some md) :
    deleteByIds s.store md.chunkIds =
      s.store.filter fun r => !(r.filepath == fp) := by
  unfold deleteByIds
  by_cases hids : md.chunkIds.isEmpty
  · rw [if_pos hids]
    have hempty : md.chunkIds = [] := List.isEmpty_iff.mp hids
    symm
    rw [List.filter_eq_self]
    intro r hr
    have : ¬ r.filepath = fp := by
      intro hfp
      have := (id_mem_iff_filepath hInv hmd hr).mpr hfp
      rw [hempty] at this
      exact List.not_mem_nil _ this
    simp [this]
  · rw [if_neg hids]
    apply List.filter_congr
    intro r hr
    have hiff := id_mem_iff_filepath hInv hmd hr
    by_cases hfp : r.filepath = fp
    · have hmem : r.id ∈ md.chunkIds := hiff.mpr hfp
      simp [hmem, hfp]
    · have hmem : r.id ∉ md.chunkIds := fun hm => hfp (hiff.mp hm)
      simp [hmem, hfp]

lemma rowsFor_filter_ne {store : List ChunkRow} {fp g : String}
    (hg : g ≠ fp) :
    rowsFor (store.filter fun r => !(r.filepath == fp)) g =
      rowsFor store g := by
  unfold rowsFor
  rw [List.filter_filter]
  apply List.filter_congr
  intro r _
  by_cases h : r.filepath = g
  · simp [h, hg]
  · simp [h]

lemma rowsFor_filter_self {store : List ChunkRow} {fp : String} :
    rowsFor (store.filter fun r => !(r.filepath == fp)) fp = [] := by
  unfold rowsFor
  rw [List.filter_filter]
  have : ∀ r ∈ store,
      ((r.filepath == fp) && !(r.filepath == fp)) = false := by
    intro r _
    by_cases h : r.filepath = fp <;> simp [h]
  rw [List.filter_congr this]
  exact List.filter_false store

lemma rowsFor_append (a b : List ChunkRow) (fp : String) :
    rowsFor (a ++ b) fp = rowsFor a fp ++ rowsFor b fp :=
  List.filter_append a b

lemma buildRecords_fields {newIds : Nat → String} {fp h : String} {now : Nat}
    {embs : List (List Int)} {chunks : List CodeChunk} {r : ChunkRow}
    (hr : r ∈ buildRecords newIds fp h now embs chunks) :
    r.filepath = fp ∧ r.hash = h ∧ ∃ i, r.id = newIds i := by
  obtain ⟨p, _, hpr⟩ := List.mem_map.mp hr
  subst hpr
  exact ⟨rfl, rfl, p.1, rfl⟩

lemma buildRecords_rowsFor (newIds : Nat → String) (fp h : String)
    (now : Nat) (embs : List (List Int)) (chunks : List CodeChunk) :
    rowsFor (buildRecords newIds fp h now embs chunks) fp =
      buildRecords newIds fp h now embs chunks := by
  unfold rowsFor
  rw [List.filter_eq_self]
  intro r hr
  simp [(buildRecords_fields hr).1]

lemma buildRecords_rowsFor_ne (newIds : Nat → String) (fp h : String)
    (now : Nat) (embs : List (List Int)) (chunks : List CodeChunk)
    {g : String} (hg : g ≠ fp) :
    rowsFor (buildRecords newIds fp h now embs chunks) g = [] := by
  unfold rowsFor
  rw [List.filter_eq_nil_iff]
  intro r hr
  have h1 := (buildRecords_fields hr).1
  simp [h1, Ne.symm hg]

lemma buildRecords_ids (newIds : Nat → String) (fp h : String) (now : Nat)
    (embs : List (List Int)) (chunks : List CodeChunk) :
    (buildRecords newIds fp h now embs chunks).map (fun r => r.id) =
      newChunkIds newIds chunks.length := by
  unfold buildRecords newChunkIds
  rw [List.map_map]
  have : ((fun r : ChunkRow => r.id) ∘ fun p : Nat × CodeChunk =>
      (⟨newIds p.1, fp, p.2.content, p.2.lineStart, p.2.lineEnd,
        embs.getD p.1 [], h, now⟩ : ChunkRow)) =
      (newIds ∘ Prod.fst) := rfl
  rw [this, ← List.map_map, List.enum_map_fst]

lemma newChunkIds_nodup {newIds : Nat → String}
    (hinj : Function.Injective newIds) (n : Nat) :
    (newChunkIds newIds n).Nodup :=
  List.Nodup.map hinj (List.nodup_range n)

/-- Core preservation step: replacing the rows of `fp` (already absent from
`store1`) by freshly-minted records and journalling them keeps the
invariant. -/
lemma inv_insert {store store1 : List ChunkRow} {j : Journal} {fp : String}
    (hInv : Inv ⟨store, j⟩)
    (hsub : store1.Sublist store)
    (hnofp : rowsFor store1 fp = [])
    (hother : ∀ g, g ≠ fp → rowsFor store1 g = rowsFor store g)
    {newIds : Nat → String} (hinj : Function.Injective newIds)
    (hfresh : ∀ i, ∀ r ∈ store, newIds i ≠ r.id)
    (h : String) (now : Nat) (embs : List (List Int))
    (chunks : List CodeChunk) :
    Inv ⟨addChunks store1 (buildRecords newIds fp h now embs chunks),
      setFile j fp
        ⟨h, now, newChunkIds newIds chunks.length, chunks.length⟩⟩ := by
  set records := buildRecords newIds fp h now embs chunks with hrec
  constructor
  · intro g md hg
    simp only [setFile] at hg
    by_cases hgf : g = fp
    · rw [if_pos hgf] at hg
      injection hg with hg
      subst hgf
      unfold idsFor
      rw [show addChunks store1 records = store1 ++ records from rfl,
        rowsFor_append, hnofp, List.nil_append, hrec,
        buildRecords_rowsFor, buildRecords_ids, ← hg]
    · rw [if_neg hgf] at hg
      unfold idsFor
      rw [show addChunks store1 records = store1 ++ records from rfl,
        rowsFor_append, hrec, buildRecords_rowsFor_ne _ _ _ _ _ _ hgf,
        List.append_nil, hother g hgf]
      exact hInv.ids_eq g md hg
  · intro g md hg r hr hrf
    simp only [setFile] at hg
    rcases List.mem_append.mp hr with hr1 | hr2
    · by_cases hgf : g = fp
      · subst hgf
        exfalso
        have : r ∈ rowsFor store1 g := mem_rowsFor.mpr ⟨hr1, hrf⟩
        rw [hnofp] at this
        exact List.not_mem_nil _ this
      · rw [if_neg hgf] at hg
        exact hInv.hash_eq g md hg r (hsub.subset hr1) hrf
    · obtain ⟨hfpr, hhash, _⟩ := buildRecords_fields hr2
      by_cases hgf : g = fp
      · rw [if_pos hgf] at hg
        injection hg with hg
        rw [hhash, ← hg]
      · exfalso
        exact hgf (hrf ▸ hfpr ▸ rfl)
  · rw [show addChunks store1 records = store1 ++ records from rfl,
      List.map_append]
    refine List.Nodup.append ?_ ?_ ?_
    · exact hInv.nodup.sublist (hsub.map _)
    · rw [hrec, buildRecords_ids]
      exact newChunkIds_nodup hinj chunks.length
    · intro a ha hb
      obtain ⟨r, hr, hra⟩ := List.mem_map.mp ha
      rw [hrec, buildRecords_ids] at hb
      obtain ⟨i, _, hib⟩ := List.mem_map.mp hb
      exact hfresh i r (hsub.subset hr) (by rw [hib, ← hra])
  · intro r hr
    rcases List.mem_append.mp hr with hr1 | hr2
    · obtain ⟨md, hmd⟩ := hInv.orphanFree r (hsub.subset hr1)
      by_cases hgf : r.filepath = fp
      · refine ⟨⟨h, now, newChunkIds newIds chunks.length, chunks.length⟩, ?_⟩
        simp [setFile, hgf]
      · exact ⟨md, by simp only [setFile, if_neg hgf]; exact hmd⟩
    · have hfpr := (buildRecords_fields hr2).1
      refine ⟨⟨h, now, newChunkIds newIds chunks.length, chunks.length⟩, ?_⟩
      simp [setFile, hfpr]

lemma inv_indexFileRest {store store1 : List ChunkRow} {j : Journal}
    {fp : String} (env : IndexEnv) (content hash : String)
    (hInv : Inv ⟨store, j⟩)
    (hsub : store1.Sublist store)
    (hnofp : rowsFor store1 fp = [])
    (hother : ∀ g, g ≠ fp → rowsFor store1 g = rowsFor store g)
    (hinj : Function.Injective env.newIds)
    (hfresh : ∀ i, ∀ r ∈ store, env.newIds i ≠ r.id)
    (herr : (indexFileRest env j store1 fp content hash).1.error = none) :
    Inv (indexFileRest env j store1 fp content hash).2 := by
  have hch : ¬ (chunkCode defaultChunkConfig env.patterns content).length = 0 :=
    fun hx =>
      chunkCode_ne_nil defaultChunkConfig env.patterns content (by decide)
        (List.length_eq_zero.mp hx)
  unfold indexFileRest at herr ⊢
  rw [if_neg hch] at herr ⊢
  cases hemb : env.embedRes with
  | error m => rw [hemb] at herr; simp at herr
  | ok embs =>
    rw [hemb] at herr
    cases hadd : env.addRes with
    | error m => rw [hadd] at herr; simp at herr
    | ok u =>
      exact inv_insert hInv hsub hnofp hother hinj hfresh hash env.now embs _

lemma inv_indexFile {M : Nat} {H : String → String} {env : IndexEnv}
    {s : IndexerState} {fp : String} {force : Bool}
    (hInv : Inv s) (hfreshIds : FreshIds env s)
    (herr : (indexFile M H env s fp force).1.error = none) :
    Inv (indexFile M H env s fp force).2 := by
  obtain ⟨store, j⟩ := s
  unfold indexFile at herr ⊢
  dsimp only at herr ⊢
  cases hst : env.statRes with
  | error m => rw [hst] at herr; simp at herr
  | ok size =>
    rw [hst] at herr
    dsimp only at herr ⊢
    by_cases h1 : M < size
    · rw [if_pos h1] at herr ⊢; exact hInv
    · rw [if_neg h1] at herr ⊢
      by_cases h2 : size = 0
      · rw [if_pos h2] at herr ⊢; exact hInv
      · rw [if_neg h2] at herr ⊢
        cases hrd : env.readRes with
        | error m => rw [hrd] at herr; simp at herr
        | ok content =>
          rw [hrd] at herr
          dsimp only at herr ⊢
          by_cases h3 : isBinaryContent content = true
          · rw [if_pos h3] at herr ⊢; exact hInv
          · rw [if_neg h3] at herr ⊢
            by_cases h4 :
                (!force && !(hasFileChanged j fp (H content))) = true
            · rw [if_pos h4] at herr ⊢; exact hInv
            · rw [if_neg h4] at herr ⊢
              cases hj : j fp with
              | some existing =>
                rw [hj] at herr
                dsimp only at herr ⊢
                cases hdel : env.deleteRes with
                | error m => rw [hdel] at herr; simp at herr
                | ok u =>
                  rw [hdel] at herr
                  dsimp only at herr ⊢
                  have hdeq : deleteByIds store existing.chunkIds =
                      store.filter fun r => !(r.filepath == fp) :=
                    deleteByIds_entry hInv hj
                  rw [hdeq] at herr ⊢
                  exact inv_indexFileRest env content (H content) hInv
                    (List.filter_sublist store) rowsFor_filter_self
                    (fun g hg => rowsFor_filter_ne hg)
                    hfreshIds.1 hfreshIds.2 herr
              | none =>
                rw [hj] at herr
                dsimp only at herr ⊢
                have hnofp : rowsFor store fp = [] := by
                  unfold rowsFor
                  rw [List.filter_eq_nil_iff]
                  intro r hr hx
                  have hfp : r.filepath = fp := by simpa using hx
                  obtain ⟨md, hmd⟩ := hInv.orphanFree r hr
                  have hmd2 : j r.filepath = some md := hmd
                  rw [hfp, hj] at hmd2
                  exact Option.noConfusion hmd2
                exact inv_indexFileRest env content (H content) hInv
                  (List.Sublist.refl store) hnofp (fun g hg => rfl)
                  hfreshIds.1 hfreshIds.2 herr

lemma inv_deleteFileOp {s : IndexerState} (hInv : Inv s) (fp : String) :
    Inv (deleteFileOp s fp) := by
  obtain ⟨store, j⟩ := s
  unfold deleteFileOp
  dsimp only
  cases hj : j fp with
  | none => exact hInv
  | some existing =>
    dsimp only
    have hdeq : deleteByIds store existing.chunkIds =
        store.filter fun r => !(r.filepath == fp) :=
      deleteByIds_entry hInv hj
    rw [hdeq]
    constructor
    · intro g md hg
      simp only [journalDeleteFile] at hg
      by_cases hgf : g = fp
      · rw [if_pos hgf] at hg; exact absurd hg (by simp)
      · rw [if_neg hgf] at hg
        unfold idsFor
        rw [rowsFor_filter_ne hgf]
        exact hInv.ids_eq g md hg
    · intro g md hg r hr hrf
      simp only [journalDeleteFile] at hg
      by_cases hgf : g = fp
      · rw [if_pos hgf] at hg; exact absurd hg (by simp)
      · rw [if_neg hgf] at hg
        exact hInv.hash_eq g md hg r ((List.filter_sublist store).subset hr) hrf
    · exact hInv.nodup.sublist ((List.filter_sublist store).map _)
    · intro r hr
      obtain ⟨hrs, hpr⟩ := List.mem_filter.mp hr
      have hne : ¬ r.filepath = fp := by simpa using hpr
      obtain ⟨md, hmd⟩ := hInv.orphanFree r hrs
      exact ⟨md, by simp only [journalDeleteFile, if_neg hne]; exact hmd⟩

lemma inv_initialState : Inv initialState := by
  constructor
  · intro fp md h
    exact absurd h (by simp [initialState, emptyJournal])
  · intro fp md h
    exact absurd h (by simp [initialState, emptyJournal])
  · simp [initialState]
  · intro r hr
    exact absurd hr (List.not_mem_nil r)

lemma inv_reach {M : Nat} {H : String → String} {s : IndexerState}
    (hreach : Reach M H s) : Inv s := by
  induction hreach with
  | init => exact inv_initialState
  | index s env fp force hr hfresh herr ih => exact inv_indexFile ih hfresh herr
  | deleteFile s fp hr ih => exact inv_deleteFileOp ih fp
  | clearStep s hr ih => exact inv_initialState

/-- **C1.** At every quiescent state reachable by the indexer's operations
(successful `indexFile`, `deleteFile`, `clear`) from the initial empty
state, for every file `fp` present in the journal, the multiset of chunk
ids stored in the vector store for filepath `fp` equals
`journal[fp].chunkIds`, and every stored chunk with that filepath carries
a hash equal to `journal[fp].hash`.  (`FreshIds` captures the uuidv4
non-collision assumption the source relies on.) -/
theorem journal_store_coherence (M : Nat) (H : String → String)
    (s : IndexerState) (hreach : Reach M H s) :
    ∀ fp md, s.journal fp = some md →
      List.Perm (idsFor s.store fp) md.chunkIds ∧
      ∀ r ∈ s.store, r.filepath = fp → r.hash = md.hash := by
  have hInv := inv_reach hreach
  intro fp md h
  exact ⟨(hInv.ids_eq fp md h) ▸ List.Perm.refl _, hInv.hash_eq fp md h⟩

/-! Witness material for the reachable-state invariant: one successful
`indexFile` run from the initial state. -/

def witnessIds (i : Nat) : String :=
  String.mk (List.replicate i (Char.ofNat 97))

lemma witnessIds_injective : Function.Injective witnessIds := by
  intro i j hij
  have hd := congrArg String.data hij
  have hl : (List.replicate i (Char.ofNat 97)).length =
      (List.replicate j (Char.ofNat 97)).length := by
    simpa [witnessIds] using congrArg List.length hd
  simpa using hl

def envW : IndexEnv :=
  { statRes := Except.ok 1
    readRes := Except.ok "x"
    patterns := []
    embedRes := Except.ok [[0]]
    deleteRes := Except.ok ()
    addRes := Except.ok ()
    newIds := witnessIds
    now := 5 }

/-- Witness for C1: after one successful reconcile of `/f` from the empty
state, the stored ids for `/f` match the journal entry. -/
theorem journal_store_coherence_witness :
    List.Perm
      (idsFor
        ((indexFile 100 (fun c => c) envW initialState "/f" false).2).store
        "/f")
      (newChunkIds witnessIds 1) := by
  have h := journal_store_coherence 100 (fun c => c) _
    (Reach.index initialState envW "/f" false Reach.init
      ⟨witnessIds_injective, fun i r hr => absurd hr (List.not_mem_nil r)⟩
      (by decide))
    "/f" ⟨"x", 5, newChunkIds witnessIds 1, 1⟩ (by decide)
  exact h.1

/-- **C6.** For a file whose content is unchanged since a successful
reconcile (the journal entry's hash equals the hash of the current
content), `indexFile` with `force = false` is a no-op: it returns
`{chunks: 0, skipped: true}` with no error, and the state — journal entry,
`chunkIds`, and vector store membership — is exactly unchanged. -/
theorem indexFile_unchanged_is_noop (M : Nat) (H : String → String)
    (env : IndexEnv) (s : IndexerState) (fp : String) (md : FileMetadata)
    (size : Nat) (content : String)
    (hstat : env.statRes = Except.ok size)
    (hsize : ¬ M < size) (hsize0 : size ≠ 0)
    (hread : env.readRes = Except.ok content)
    (hbin : isBinaryContent content = false)
    (hmd : s.journal fp = some md)
    (hhash : md.hash = H content) :
    indexFile M H env s fp false = (⟨0, true, none⟩, s) := by
  have hb2 : ¬ isBinaryContent content = true := by simp [hbin]
  have hfc : hasFileChanged s.journal fp (H content) = false := by
    unfold hasFileChanged
    rw [hmd]
    simp [hhash]
  have hcond : (!false && !(hasFileChanged s.journal fp (H content))) = true := by
    rw [hfc]
    rfl
  unfold indexFile
  rw [hstat]
  dsimp only
  rw [if_neg hsize, if_neg hsize0, hread]
  dsimp only
  rw [if_neg hb2, if_pos hcond]

def sW6 : IndexerState :=
  ⟨[⟨"id0", "/f", "x", 1, 1, [0], "x", 5⟩],
    setFile emptyJournal "/f" ⟨"x", 5, ["id0"], 1⟩⟩

/-- Witness for C6: re-reconciling an unchanged file leaves the state
untouched. -/
theorem indexFile_unchanged_is_noop_witness :
    indexFile 100 (fun c => c) envW sW6 "/f" false =
      (⟨0, true, none⟩, sW6) :=
  indexFile_unchanged_is_noop 100 (fun c => c) envW sW6 "/f"
    ⟨"x", 5, ["id0"], 1⟩ 1 "x" rfl (by decide) (by decide) rfl (by decide)
    (by decide) rfl

/-- **C8.** Whenever a step of `indexFile` throws (stat, read, embedding,
store delete or insert) — i.e. whenever the result carries an error
message — the call returns `{chunks: 0, skipped: true, error: message}`
instead of propagating the exception, and the journal is left untouched
(no `setFile` happens in that call). -/
theorem indexFile_error_leaves_journal (M : Nat) (H : String → String)
    (env : IndexEnv) (s : IndexerState) (fp : String) (force : Bool)
    (e : String)
    (h : (indexFile M H env s fp force).1.error = some e) :
    (indexFile M H env s fp force).1 = ⟨0, true, some e⟩ ∧
    (indexFile M H env s fp force).2.journal = s.journal := by
  obtain ⟨store, j⟩ := s
  unfold indexFile at h ⊢
  dsimp only at h ⊢
  cases hst : env.statRes with
  | error m =>
    rw [hst] at h
    dsimp only at h ⊢
    injection h with h2
    subst h2
    exact ⟨rfl, rfl⟩
  | ok size =>
    rw [hst] at h
    dsimp only at h ⊢
    by_cases h1 : M < size
    · rw [if_pos h1] at h ⊢; simp at h
    · rw [if_neg h1] at h ⊢
      by_cases h2 : size = 0
      · rw [if_pos h2] at h ⊢; simp at h
      · rw [if_neg h2] at h ⊢
        cases hrd : env.readRes with
        | error m =>
          rw [hrd] at h
          dsimp only at h ⊢
          injection h with hx
          subst hx
          exact ⟨rfl, rfl⟩
        | ok content =>
          rw [hrd] at h
          dsimp only at h ⊢
          by_cases h3 : isBinaryContent content = true
          · rw [if_pos h3] at h ⊢; simp at h
          · rw [if_neg h3] at h ⊢
            by_cases h4 :
                (!force && !(hasFileChanged j fp (H content))) = true
            · rw [if_pos h4] at h ⊢; simp at h
            · rw [if_neg h4] at h ⊢
              cases hj : j fp with
              | some existing =>
                rw [hj] at h
                dsimp only at h ⊢
                cases hdel : env.deleteRes with
                | error m =>
                  rw [hdel] at h
                  dsimp only at h ⊢
                  injection h with hx
                  subst hx
                  exact ⟨rfl, rfl⟩
                | ok u =>
                  rw [hdel] at h
                  dsimp only at h ⊢
                  unfold indexFileRest at h ⊢
                  by_cases hc :
                      (chunkCode defaultChunkConfig env.patterns
                        content).length = 0
                  · rw [if_pos hc] at h ⊢; simp at h
                  · rw [if_neg hc] at h ⊢
                    cases hemb : env.embedRes with
                    | error m =>
                      rw [hemb] at h
                      dsimp only at h ⊢
                      injection h with hx
                      subst hx
                      exact ⟨rfl, rfl⟩
                    | ok embs =>
                      rw [hemb] at h
                      dsimp only at h ⊢
                      cases hadd : env.addRes with
                      | error m =>
                        rw [hadd] at h
                        dsimp only at h ⊢
                        injection h with hx
                        subst hx
                        exact ⟨rfl, rfl⟩
                      | ok u2 =>
                        rw [hadd] at h
                        dsimp only at h
                        simp at h
              | none =>
                rw [hj] at h
                dsimp only at h ⊢
                unfold indexFileRest at h ⊢
                by_cases hc :
                    (chunkCode defaultChunkConfig env.patterns
                      content).length = 0
                · rw [if_pos hc] at h ⊢; simp at h
                · rw [if_neg hc] at h ⊢
                  cases hemb : env.embedRes with
                  | error m =>
                    rw [hemb] at h
                    dsimp only at h ⊢
                    injection h with hx
                    subst hx
                    exact ⟨rfl, rfl⟩
                  | ok embs =>
                    rw [hemb] at h
                    dsimp only at h ⊢
                    cases hadd : env.addRes with
                    | error m =>
                      rw [hadd] at h
                      dsimp only at h ⊢
                      injection h with hx
                      subst hx
                      exact ⟨rfl, rfl⟩
                    | ok u2 =>
                      rw [hadd] at h
                      dsimp only at h
                      simp at h

def envErr : IndexEnv :=
  { statRes := Except.error "ENOENT: no such file"
    readRes := Except.error "ENOENT: no such file"
    patterns := []
    embedRes := Except.error "fetch failed"
    deleteRes := Except.ok ()
    addRes := Except.ok ()
    newIds := fun _ => ""
    now := 0 }

/-- Witness for C8: a failing `stat` yields the error result and an
untouched journal. -/
theorem indexFile_error_leaves_journal_witness :
    (indexFile 100 (fun c => c) envErr sW6 "/f" false).1 =
      ⟨0, true, some "ENOENT: no such file"⟩ ∧
    (indexFile 100 (fun c => c) envErr sW6 "/f" false).2.journal =
      sW6.journal :=
  indexFile_error_leaves_journal 100 (fun c => c) envErr sW6 "/f" false
    "ENOENT: no such file" rfl

/-- **C2 (amended).** On the reconcile path for a journalled file, before
inserting the new chunks `indexFile` deletes exactly the stored vectors
whose ids are listed in the journal entry's `chunkIds` — a delete by id,
not by filepath: the final store is the old store minus those ids plus the
freshly built records.  Vectors with the reconciled filepath whose ids are
not in the journal entry (orphans left by a crash between a chunk insert
and the matching journal update) are not removed. -/
theorem indexFile_deletes_by_journal_ids (M : Nat) (H : String → String)
    (env : IndexEnv) (s : IndexerState) (fp : String) (force : Bool)
    (size : Nat) (content : String) (md : FileMetadata)
    (embs : List (List Int))
    (hstat : env.statRes = Except.ok size)
    (hsz : ¬ M < size) (hsz0 : size ≠ 0)
    (hread : env.readRes = Except.ok content)
    (hbin : isBinaryContent content = false)
    (hproceed : (!force && !(hasFileChanged s.journal fp (H content))) = false)
    (hmd : s.journal fp = some md)
    (hdel : env.deleteRes = Except.ok ())
    (hemb : env.embedRes = Except.ok embs)
    (hadd : env.addRes = Except.ok ()) :
    (indexFile M H env s fp force).2.store =
      deleteByIds s.store md.chunkIds ++
        buildRecords env.newIds fp (H content) env.now embs
          (chunkCode defaultChunkConfig env.patterns content) := by
  have hb2 : ¬ isBinaryContent content = true := by simp [hbin]
  have hp2 : ¬ (!force && !(hasFileChanged s.journal fp (H content))) = true := by
    simp [hproceed]
  have hch : ¬ (chunkCode defaultChunkConfig env.patterns content).length = 0 :=
    fun hx =>
      chunkCode_ne_nil defaultChunkConfig env.patterns content (by decide)
        (List.length_eq_zero.mp hx)
  unfold indexFile
  rw [hstat]
  dsimp only
  rw [if_neg hsz, if_neg hsz0, hread]
  dsimp only
  rw [if_neg hb2, if_neg hp2, hmd]
  dsimp only
  rw [hdel]
  dsimp only
  unfold indexFileRest
  rw [if_neg hch, hemb]
  dsimp only
  rw [hadd]
  exact rfl

/-- The chunk row surviving a crash-healing scenario: it was inserted by a
crashed reconcile of `/f`, so its id `b` is absent from the journal
entry of `/f` (which lists only `a`). -/
def rowOrphan : ChunkRow := ⟨"b", "/f", "c2", 1, 1, [0], "h0", 0⟩

def rowKept : ChunkRow := ⟨"a", "/f", "c1", 1, 1, [0], "h0", 0⟩

def sC2 : IndexerState :=
  ⟨[rowKept, rowOrphan], setFile emptyJournal "/f" ⟨"h0", 0, ["a"], 1⟩⟩

def envC2 : IndexEnv :=
  { statRes := Except.ok 3
    readRes := Except.ok "new"
    patterns := []
    embedRes := Except.ok [[1]]
    deleteRes := Except.ok ()
    addRes := Except.ok ()
    newIds := fun i => "n" ++ Nat.repr i
    now := 9 }

/-- Witness for the amended C2: the concrete reconcile of `/f` produces
exactly delete-by-id followed by the insertion of the new records. -/
theorem indexFile_deletes_by_journal_ids_witness :
    (indexFile 100 (fun c => c) envC2 sC2 "/f" false).2.store =
      deleteByIds sC2.store ["a"] ++
        buildRecords envC2.newIds "/f" "new" 9 [[1]]
          (chunkCode defaultChunkConfig envC2.patterns "new") :=
  indexFile_deletes_by_journal_ids 100 (fun c => c) envC2 sC2 "/f" false
    3 "new" ⟨"h0", 0, ["a"], 1⟩ [[1]] rfl (by decide) (by decide) rfl
    (by decide) (by decide) rfl rfl rfl rfl

/-- **C2 (counterexample).** The claim says the reconcile of `/f` removes
every stored vector whose filepath is `/f` before inserting.  In the
concrete run from `sC2` — where the store holds an orphan row for `/f`
(id `b`) that the journal entry does not list — the orphan is still in
the store after the reconcile, because the code deletes by the journal's
chunk ids rather than by filepath. -/
theorem indexFile_does_not_delete_by_filepath :
    rowOrphan.filepath = "/f" ∧
    rowOrphan ∈ ((indexFile 100 (fun c => c) envC2 sC2 "/f" false).2).store :=
  ⟨rfl, by decide⟩

end WbGrep
